import Mathlib

/-!
Verification development for the obsidian-gitlab-issues plugin.

The definitions below are a shallow embedding of the plugin's TypeScript
source: YAML frontmatter values become an inductive `Yaml` type, the pure
comparator `needsUpdate` is translated clause by clause, the custom-scope
parser, the filename sanitizer, the relative-time formatter, the link
post-processor's URL filter, the `isLoading` gate and the per-issue
reconcile step of the synchronizer are each translated from the functions
of the same name.  JavaScript `null` and `undefined` are both modelled as
`Yaml.null`; numbers are modelled as integers (no claim involves
fractional values); a thrown exception becomes an `Except` error.
-/

namespace GitlabIssues

/-- Model of a parsed YAML / JSON value as produced by `parseYaml` on a
frontmatter block.  JavaScript `null`/`undefined` are conflated into
`null`; numbers are modelled as integers. -/
inductive Yaml where
  | null
  | bool (b : Bool)
  | num (n : Int)
  | str (s : String)
  | arr (items : List Yaml)
  | obj (entries : List (String × Yaml))

/-- Lookup of `entries[key]` on a modelled JavaScript object: the value of
the first entry with the given key, or `none` when the key is absent. -/
def objLookup (entries : List (String × Yaml)) (key : String) : Option Yaml :=
  (entries.find? (fun kv => kv.1 = key)).map Prod.snd

/-- Lookup defaulting to `Yaml.null`: JavaScript `existing[key]` evaluates
to `undefined` when the key is absent, which this model conflates with
`null`. -/
def objLookupD (entries : List (String × Yaml)) (key : String) : Yaml :=
  (objLookup entries key).getD Yaml.null

mutual

/-- Translation of `needsUpdate` from `src/utils/utils.ts`:
returns `false` when the new value is `null`/`undefined`; `true` when the
existing value is `null`/`undefined` but the new one is not; strict
inequality for primitives; length plus index-wise recursion for arrays;
and, for objects, recursion over the keys of the new object only. -/
def needsUpdate : Yaml → Yaml → Bool
  | _, .null => false
  | .null, _ => true
  | e, .bool b =>
      match e with
      | .bool b' => !(b' = b)
      | _ => true
  | e, .num n =>
      match e with
      | .num n' => !(n' = n)
      | _ => true
  | e, .str s =>
      match e with
      | .str s' => !(s' = s)
      | _ => true
  | e, .arr items =>
      match e with
      | .arr eitems =>
          if eitems.length = items.length then needsUpdateIdx eitems items
          else true
      | _ => true
  | e, .obj entries =>
      match e with
      | .obj eentries => needsUpdateKeys eentries entries
      | _ => true

/-- Index-wise recursion of `needsUpdate` over two arrays (the lengths are
already known to agree when this is reached). -/
def needsUpdateIdx : List Yaml → List Yaml → Bool
  | _, [] => false
  | [], _ :: _ => true
  | e :: es, n :: ns => needsUpdate e n || needsUpdateIdx es ns

/-- Recursion of `needsUpdate` over the keys of the new object: for each
key of the new object, compare `existing[key]` (defaulting to null for a
missing key) with the new value. -/
def needsUpdateKeys (eentries : List (String × Yaml)) : List (String × Yaml) → Bool
  | [] => false
  | (k, v) :: rest =>
      needsUpdate (objLookupD eentries k) v || needsUpdateKeys eentries rest

end

/-- Test for a key list without duplicates, as holds for the key set of
any JavaScript object. -/
def nodupKeys : List String → Bool
  | [] => true
  | k :: ks => !(ks.contains k) && nodupKeys ks

mutual

/-- Well-formedness of a modelled YAML value: every object that occurs in
it has duplicate-free keys.  Values produced by parsing YAML
frontmatter always satisfy this, since a JavaScript object cannot hold
the same key twice. -/
def Yaml.wfB : Yaml → Bool
  | .null => true
  | .bool _ => true
  | .num _ => true
  | .str _ => true
  | .arr items => wfListB items
  | .obj entries => nodupKeys (entries.map Prod.fst) && wfEntriesB entries

/-- Well-formedness of each element of an array value. -/
def wfListB : List Yaml → Bool
  | [] => true
  | x :: xs => x.wfB && wfListB xs

/-- Well-formedness of each value of an object entry list. -/
def wfEntriesB : List (String × Yaml) → Bool
  | [] => true
  | (_, v) :: rest => v.wfB && wfEntriesB rest

end

/-- Test whether a value is a non-composite scalar (null, boolean, number
or string). -/
def isScalarYaml : Yaml → Bool
  | .null => true
  | .bool _ => true
  | .num _ => true
  | .str _ => true
  | .arr _ => false
  | .obj _ => false

/-- Test whether a value is a mapping (a YAML object). -/
def isMappingYaml : Yaml → Bool
  | .obj _ => true
  | _ => false

/-- Assignment `target[key] = value` on a modelled JavaScript object: an
existing entry with the key is overwritten in place, otherwise the new
entry is appended, matching JavaScript property insertion order. -/
def objSet : List (String × Yaml) → String → Yaml → List (String × Yaml)
  | [], key, v => [(key, v)]
  | e :: es, key, v =>
      if e.1 = key then (key, v) :: es else e :: objSet es key v

/-- Model of `Object.assign(target, source)` on two objects: each entry of
the source is assigned into the target in order. -/
def objAssign (target source : List (String × Yaml)) : List (String × Yaml) :=
  source.foldl (fun acc kv => objSet acc kv.1 kv.2) target

/-- Effect of `processFrontMatter(file, fm => Object.assign(fm, newFm))`
on the frontmatter of a file: when the file already has a frontmatter
mapping the new entries are assigned into it; when the file has no
frontmatter (modelled as `null`) the host passes an empty mapping, so the
result is the new entries assigned into an empty object.  Other shapes of
existing frontmatter are outside the frontmatter data model (the spec's
RenderedDocument invariant makes frontmatter a mapping) and are modelled
as left unchanged. -/
def frontmatterAssign (existing newFm : Yaml) : Yaml :=
  match existing, newFm with
  | .obj te, .obj se => .obj (objAssign te se)
  | .null, .obj se => .obj (objAssign [] se)
  | _, _ => existing

/-- Frontmatter shapes for which this model captures the host's merge
behaviour exactly: no frontmatter, or a frontmatter mapping. -/
def fmMergeable : Yaml → Bool
  | .null => true
  | .obj _ => true
  | _ => false

/-- Frontmatter shapes produced by rendering a well-formed template: no
frontmatter block at all, or a duplicate-key-free mapping. -/
def fmWellFormed : Yaml → Bool
  | .null => true
  | .obj entries => Yaml.wfB (.obj entries)
  | _ => false

/-- Translation of `sanitizeFileName` from `src/utils/utils.ts`:
`value.replace(/[:]/g, "").replace(/[*"\/\\<>|?]/g, "-")` — every colon
is deleted, then every character of the second class is replaced by a
hyphen.  Global single-character-class replacement is modelled
character by character. -/
def sanitizeFileName (value : String) : String :=
  String.mk
    ((value.data.filter (fun c => c ≠ ':')).map
      (fun c => if c ∈ ['*', '"', '/', '\\', '<', '>', '|', '?'] then '-' else c))

/-- Whitespace test used by the model of JavaScript `String.trim`
(restricted to the ASCII whitespace characters; the custom-scope strings
of this plugin contain no exotic Unicode whitespace). -/
def isJsWhitespace (c : Char) : Bool :=
  c = ' ' || c = '\t' || c = '\n' || c = '\r' || c = '\x0b' || c = '\x0c'

/-- Model of JavaScript `String.prototype.trim`: strip whitespace from
both ends. -/
def jsTrim (s : String) : String :=
  String.mk (((s.data.dropWhile isJsWhitespace).reverse.dropWhile isJsWhitespace).reverse)

/-- Model of JavaScript `String.prototype.toUpperCase` (character by
character; the parser only compares the result against `"G"` and
`"P"`). -/
def jsToUpper (s : String) : String :=
  String.mk (s.data.map Char.toUpper)

/-- Splitting of a character list on a separator character; the result
always has one piece more than the number of separators. -/
def splitOnCharList (sep : Char) (cs : List Char) : List (List Char) :=
  cs.foldr
    (fun c acc =>
      if c = sep then [] :: acc
      else
        match acc with
        | a :: rest => (c :: a) :: rest
        | [] => [[c]])
    [[]]

/-- Model of JavaScript `String.prototype.split` with a single-character
separator: `"".split(s)` is `[""]`, consecutive separators produce empty
pieces, a trailing separator produces a trailing empty piece. -/
def jsSplit (s : String) (sep : Char) : List String :=
  (splitOnCharList sep s.data).map String.mk

/-- Test whether `pat` occurs at the head of `cs`. -/
def charsMatchAt : List Char → List Char → Bool
  | [], _ => true
  | _ :: _, [] => false
  | p :: ps, c :: cs => p = c && charsMatchAt ps cs

/-- Model of JavaScript `String.prototype.startsWith`. -/
def jsStartsWith (s pat : String) : Bool :=
  charsMatchAt pat.data s.data

/-- Scope type of one custom source entry. -/
inductive SourceType where
  | project
  | group
  deriving DecidableEq, Repr

/-- Failures of the custom-source parser: the explicit
`Invalid source type` error thrown for an unknown type letter, and the
TypeError raised by `id.trim()` when an entry has no colon (so the
destructured `id` is `undefined`). -/
inductive SourceErr where
  | invalidSourceType (t : String)
  | undefinedId
  deriving DecidableEq, Repr

/-- Model of JavaScript `Array.prototype.map` over a callback that may
throw: elements are processed left to right and the first thrown error
aborts the whole map.  The same shape models `Promise.all` over a list of
already-settled results: any rejection rejects the whole, otherwise all
fulfilled values are collected in order. -/
def mapThrow {α β ε : Type} (f : α → Except ε β) : List α → Except ε (List β)
  | [] => .ok []
  | x :: xs =>
      match f x with
      | .error e => .error e
      | .ok y =>
          match mapThrow f xs with
          | .error e => .error e
          | .ok ys => .ok (y :: ys)

/-- Uppercased, trimmed first colon-segment of a source entry — the value
the parser matches against `"G"` and `"P"`. -/
def entryTypeOf (source : String) : String :=
  jsToUpper (jsTrim ((jsSplit source ':').headD ""))

/-- Translation of the per-entry body of `parseCustomSources`
(`gitlab-loader.ts`): `const [typePrefix, id] = source.split(":")`
destructures the first two colon-separated segments; the trimmed,
uppercased first segment selects group or project; the second segment is
the id (trimmed); a missing second segment makes `id.trim()` throw a
TypeError; any other type letter throws `Invalid source type`. -/
def parseEntry (source : String) : Except SourceErr (SourceType × String) :=
  let parts := jsSplit source ':'
  let t := jsToUpper (jsTrim (parts.headD ""))
  if t = "G" then
    match parts.get? 1 with
    | some id => .ok (.group, jsTrim id)
    | none => .error .undefinedId
  else if t = "P" then
    match parts.get? 1 with
    | some id => .ok (.project, jsTrim id)
    | none => .error .undefinedId
  else .error (.invalidSourceType t)

/-- Pipeline of `parseCustomSources` applied to the already comma-split
pieces: trim each piece, drop the empty ones, parse each remaining
entry. -/
def parseSourceEntryList (pieces : List String) : Except SourceErr (List (SourceType × String)) :=
  mapThrow parseEntry ((pieces.map jsTrim).filter (fun s => s.length > 0))

/-- Translation of `GitlabLoader.parseCustomSources`: split the custom
scope string on commas, trim, drop empty entries, parse each entry. -/
def parseCustomSources (customString : String) : Except SourceErr (List (SourceType × String)) :=
  parseSourceEntryList (jsSplit customString ',')

/-- Raw issue record as returned by the remote API.  Only identity fields
are modelled; the claims under proof never inspect the record beyond
passing it through the mapper. -/
structure RawIssue where
  id : Int
  title : String

/-- Normalized issue consumed by the filesystem layer: the reconcile step
of `filesystem.ts` reads only `issue.filename` (for the target path),
`issue.title` (for the notification) and passes the whole record to the
compiled template. -/
structure ObsidianIssue where
  filename : String
  title : String

/-- Rendered document: a frontmatter value derivable from the leading
`---` block plus the body below it.  This models a file's content
together with `getFrontMatterInfo` + `parseYaml`, which re-derive the
frontmatter from the content string. -/
structure VFile where
  frontmatter : Yaml
  body : String

/-- Model of the vault as an association list from file path to file. -/
abbrev Vault := List (String × VFile)

/-- Observable file writes performed by one synchronizer run. -/
inductive FileOp where
  | create (path : String) (file : VFile)
  | updateFrontmatter (path : String) (newFrontmatter : Yaml)
  | deleteFile (path : String)

/-- Lookup of `vault.getAbstractFileByPath`. -/
def vaultGet (vault : Vault) (path : String) : Option VFile :=
  (vault.find? (fun e => e.1 = path)).map Prod.snd

/-- Store a file at a path, overwriting an existing file at that path. -/
def vaultSet : Vault → String → VFile → Vault
  | [], path, file => [(path, file)]
  | e :: es, path, file =>
      if e.1 = path then (path, file) :: es else e :: vaultSet es path file

/-- Translation of `Filesystem.buildFileName`:
`outputDir + "/" + issue.filename + ".md"`. -/
def buildFileName (outputDir : String) (issue : ObsidianIssue) : String :=
  outputDir ++ "/" ++ issue.filename ++ ".md"

/-- Translation of `Filesystem.saveOrUpdateIssue` (the revision gated by
`needsUpdate`): render the template, look the file up; if absent, create
it with the rendered content; if present, compare the existing
frontmatter with the newly derived one via `needsUpdate` and, only when
an update is needed, assign the new frontmatter entries into the existing
frontmatter block, leaving the body untouched.  The returned list records
the writes performed. -/
def saveOrUpdateIssue (outputDir : String) (template : ObsidianIssue → VFile)
    (vault : Vault) (issue : ObsidianIssue) : Vault × List FileOp :=
  let content := template issue
  let path := buildFileName outputDir issue
  match vaultGet vault path with
  | some existingFile =>
      let newFrontmatter := content.frontmatter
      if needsUpdate existingFile.frontmatter newFrontmatter then
        (vaultSet vault path
          { existingFile with
            frontmatter := frontmatterAssign existingFile.frontmatter newFrontmatter },
         [.updateFrontmatter path newFrontmatter])
      else (vault, [])
  | none => (vaultSet vault path content, [.create path content])

/-- Translation of `Filesystem.processIssues` specialised to an already
compiled template: reconcile each issue in order, accumulating the
performed writes. -/
def processIssues (outputDir : String) (template : ObsidianIssue → VFile)
    (vault : Vault) (issues : List ObsidianIssue) : Vault × List FileOp :=
  issues.foldl
    (fun acc issue =>
      let r := saveOrUpdateIssue outputDir template acc.1 issue
      (r.1, acc.2 ++ r.2))
    (vault, [])

/-- Translation of `Filesystem.purgeExistingIssues`: delete every file
below the output directory. -/
def purgeExistingIssues (outputDir : String) (vault : Vault) : Vault × List FileOp :=
  (vault.filter (fun e => !(jsStartsWith e.1 (outputDir ++ "/"))),
   (vault.filter (fun e => jsStartsWith e.1 (outputDir ++ "/"))).map
     (fun e => .deleteFile e.1))

/-- Translation of `GitlabLoader.processIssuesData`: map each raw issue
through the issue mapper, purge the output directory when the purge flag
is set, then reconcile every mapped issue.  The mapper (class
`GitlabIssue`) is passed as a parameter. -/
def processIssuesData (mapper : RawIssue → ObsidianIssue) (outputDir : String)
    (template : ObsidianIssue → VFile) (purgeIssues : Bool)
    (vault : Vault) (issues : List RawIssue) : Vault × List FileOp :=
  let mapped := issues.map mapper
  let purged := if purgeIssues then purgeExistingIssues outputDir vault else (vault, [])
  let r := processIssues outputDir template purged.1 mapped
  (r.1, purged.2 ++ r.2)

/-- Translation of `GitlabLoader.loadCustomIssues`: parse the custom
sources, fetch every source (`Promise.all` — any rejection rejects the
whole), flatten the arrays in source order, and hand the result to
`processIssuesData`; any error is caught and logged, leaving the vault
untouched with no writes.  The per-source fetch outcome is passed as a
function. -/
def loadCustomIssuesRun (fetch : SourceType × String → Except String (List RawIssue))
    (mapper : RawIssue → ObsidianIssue) (outputDir : String)
    (template : ObsidianIssue → VFile) (purgeIssues : Bool)
    (vault : Vault) (customString : String) : Vault × List FileOp :=
  match parseCustomSources customString with
  | .error _ => (vault, [])
  | .ok sources =>
      match mapThrow fetch sources with
      | .error _ => (vault, [])
      | .ok issueArrays => processIssuesData mapper outputDir template purgeIssues vault issueArrays.flatten

/-- Plugin state visible to the synchronization triggers. -/
structure PluginState where
  isLoading : Bool
  vault : Vault

/-- Translation of `GitlabIssuesPlugin.fetchFromGitlab`: return
immediately when a run is already in flight; otherwise set the loading
flag, run the loader, and clear the flag. -/
def fetchFromGitlab (runLoader : Vault → Vault × List FileOp)
    (s : PluginState) : PluginState × List FileOp :=
  if s.isLoading then (s, [])
  else
    let r := runLoader s.vault
    ({ isLoading := false, vault := r.1 }, r.2)

/-- Translation of the status-bar click handler registered in
`addGitlabStatusBarItem`: invoke the synchronizer only when not already
loading. -/
def statusBarClickTrigger (runLoader : Vault → Vault × List FileOp)
    (s : PluginState) : PluginState × List FileOp :=
  if !s.isLoading then fetchFromGitlab runLoader s else (s, [])

/-- Translation of the command-palette callback registered in
`addCommandToPalette`: invoke the synchronizer only when not already
loading. -/
def commandPaletteTrigger (runLoader : Vault → Vault × List FileOp)
    (s : PluginState) : PluginState × List FileOp :=
  if !s.isLoading then fetchFromGitlab runLoader s else (s, [])

/-- Translation of the ribbon-icon click handler registered in
`addIconToLeftRibbon`: invokes the synchronizer entry point directly. -/
def ribbonIconTrigger (runLoader : Vault → Vault × List FileOp)
    (s : PluginState) : PluginState × List FileOp :=
  fetchFromGitlab runLoader s

/-- Translation of the interval callback of `scheduleAutomaticRefresh`:
invokes the synchronizer entry point directly. -/
def intervalTrigger (runLoader : Vault → Vault × List FileOp)
    (s : PluginState) : PluginState × List FileOp :=
  fetchFromGitlab runLoader s

/-- Translation of the startup timeout callback of
`refreshIssuesAtStartup`: invokes the synchronizer entry point
directly. -/
def startupTrigger (runLoader : Vault → Vault × List FileOp)
    (s : PluginState) : PluginState × List FileOp :=
  fetchFromGitlab runLoader s

/-- Host and pathname of a parsed WHATWG URL, the two components the link
post-processor inspects. -/
structure UrlParts where
  host : String
  pathname : String

/-- Test whether `cs` begins with the literal slash, dash, slash,
`issues`, slash segment followed by at least one digit — the tail of the
issue-URL regular expression. -/
def issuesTailHere (cs : List Char) : Bool :=
  charsMatchAt "/-/issues/".data cs &&
    (match cs.drop 10 with
     | c :: _ => c.isDigit
     | [] => false)

/-- Model of the `.test(pathname)` call on the issue-path regular
expression (slash, any characters, the slash, dash, slash, `issues`,
slash segment, digits): an unanchored search for a slash followed,
possibly after further characters, by that segment and a digit (the
final `+` adds nothing to a boolean test). -/
def pathRegexTest (pathname : String) : Bool :=
  let cs := pathname.data
  (List.range (cs.length + 1)).any (fun i =>
    (match cs.drop i with
     | '/' :: _ => true
     | _ => false) &&
    (List.range (cs.length + 1)).any (fun j =>
      decide (i < j) && issuesTailHere (cs.drop j)))

/-- Translation of `GitlabIssuePostProcessor.isGitlabIssueUrl`: parse the
candidate address and the configured tracker base URL; the link is a
tracker issue link when both parse, the hosts are equal, and the pathname
matches the issue pattern.  Any parse failure is caught and yields
`false`.  The WHATWG URL parser of the platform is passed as a
function. -/
def isGitlabIssueUrl (parseUrl : String → Option UrlParts)
    (gitlabUrl : String) (url : String) : Bool :=
  match parseUrl url, parseUrl gitlabUrl with
  | some u, some g => u.host = g.host && pathRegexTest u.pathname
  | _, _ => false

/-- Translation of `GitlabIssuePostProcessor.processElement`: with no
configured token nothing is touched; otherwise exactly the anchors whose
non-empty address passes `isGitlabIssueUrl` are handed to the
asynchronous card replacement.  The returned list is the set of
addresses the post-processor acts on; every other anchor is left
unchanged. -/
def processElementLinks (parseUrl : String → Option UrlParts)
    (gitlabToken gitlabUrl : String) (links : List String) : List String :=
  if gitlabToken = "" then []
  else links.filter (fun href => !(href = "") && isGitlabIssueUrl parseUrl gitlabUrl href)

/-- Day difference of `formatDate`: the ceiling of the absolute
millisecond difference divided by the milliseconds of one day. -/
def diffDaysOf (dateMs nowMs : Int) : Nat :=
  ((nowMs - dateMs).natAbs + (86400000 - 1)) / 86400000

/-- Translation of `GitlabIssuePostProcessor.formatDate`, with the two
timestamps already taken as milliseconds: exactly one day renders
`"1 day ago"`; below 30 days, a day count; below 365 days, a month count
(`diffDays / 30`, with a plural `s` only above one); otherwise a year
count (`diffDays / 365`, likewise). -/
def formatDate (dateMs nowMs : Int) : String :=
  let diffDays := diffDaysOf dateMs nowMs
  if diffDays = 1 then "1 day ago"
  else if diffDays < 30 then toString diffDays ++ " days ago"
  else if diffDays < 365 then
    let months := diffDays / 30
    toString months ++ " month" ++ (if months > 1 then "s" else "") ++ " ago"
  else
    let years := diffDays / 365
    toString years ++ " year" ++ (if years > 1 then "s" else "") ++ " ago"

end GitlabIssues

namespace GitlabIssues

/-! Basic lemmas about `needsUpdate`. -/

theorem needsUpdate_null_right (e : Yaml) : needsUpdate e .null = false := by
  cases e <;> rfl

theorem needsUpdate_null_left (v : Yaml) (h : v ≠ .null) : needsUpdate .null v = true := by
  cases v <;> first | exact absurd rfl h | rfl

theorem needsUpdateKeys_eq_any (e : List (String × Yaml)) (n : List (String × Yaml)) :
    needsUpdateKeys e n = n.any (fun kv => needsUpdate (objLookupD e kv.1) kv.2) := by
  induction n with
  | nil => rfl
  | cons kv rest ih => cases kv with
    | mk k v => simp [needsUpdateKeys, ih]

theorem needsUpdate_obj_obj (e n : List (String × Yaml)) :
    needsUpdate (.obj e) (.obj n) = needsUpdateKeys e n := by
  rfl

theorem objLookup_of_nodupKeys (n : List (String × Yaml)) (k : String) (v : Yaml)
    (hnd : nodupKeys (n.map Prod.fst) = true) (hmem : (k, v) ∈ n) :
    objLookup n k = some v := by
  induction n with
  | nil => cases hmem
  | cons kv rest ih =>
      simp only [List.map_cons, nodupKeys, Bool.and_eq_true, Bool.not_eq_true'] at hnd
      rcases List.mem_cons.mp hmem with h | h
      · subst h
        simp [objLookup, List.find?]
      · have hk : kv.1 ≠ k := by
          intro hkk
          have hmem' : kv.1 ∈ rest.map Prod.fst := by
            rw [hkk]
            exact List.mem_map.mpr ⟨(k, v), h, rfl⟩
          rw [← List.elem_iff] at hmem'
          rw [show (rest.map Prod.fst).contains kv.1 = (rest.map Prod.fst).elem kv.1 from rfl] at hnd
          rw [hnd.1] at hmem'
          cases hmem'
        simp only [objLookup, List.find?]
        rw [show (decide (kv.1 = k)) = false from by simp [hk]]
        exact ih hnd.2 h

theorem needsUpdateKeys_false_of_lookup (e n : List (String × Yaml))
    (h : ∀ kv ∈ n, needsUpdate (objLookupD e kv.1) kv.2 = false) :
    needsUpdateKeys e n = false := by
  rw [needsUpdateKeys_eq_any]
  simp only [List.any_eq_false]
  intro kv hkv
  simp [h kv hkv]

mutual

theorem needsUpdate_self (x : Yaml) (h : Yaml.wfB x = true) : needsUpdate x x = false :=
  match x, h with
  | .null, _ => rfl
  | .bool b, _ => by simp [needsUpdate]
  | .num n, _ => by simp [needsUpdate]
  | .str s, _ => by simp [needsUpdate]
  | .arr items, h => by
      have hl : wfListB items = true := by simpa [Yaml.wfB] using h
      simp [needsUpdate, needsUpdateIdx_self items hl]
  | .obj entries, h => by
      have hh : nodupKeys (entries.map Prod.fst) = true ∧ wfEntriesB entries = true := by
        simpa [Yaml.wfB, Bool.and_eq_true] using h
      have hvals := needsUpdate_self_entries entries hh.2
      rw [needsUpdate_obj_obj]
      apply needsUpdateKeys_false_of_lookup
      intro kv hkv
      have hlk : objLookup entries kv.1 = some kv.2 :=
        objLookup_of_nodupKeys entries kv.1 kv.2 hh.1 hkv
      rw [objLookupD, hlk]
      exact hvals kv hkv

theorem needsUpdateIdx_self (items : List Yaml) (h : wfListB items = true) :
    needsUpdateIdx items items = false :=
  match items, h with
  | [], _ => rfl
  | x :: xs, h => by
      have hh : Yaml.wfB x = true ∧ wfListB xs = true := by
        simpa [wfListB, Bool.and_eq_true] using h
      simp [needsUpdateIdx, needsUpdate_self x hh.1, needsUpdateIdx_self xs hh.2]

theorem needsUpdate_self_entries (entries : List (String × Yaml))
    (h : wfEntriesB entries = true) :
    ∀ kv ∈ entries, needsUpdate kv.2 kv.2 = false :=
  match entries, h with
  | [], _ => by intro kv hkv; cases hkv
  | (k, v) :: rest, h => by
      have hh : Yaml.wfB v = true ∧ wfEntriesB rest = true := by
        simpa [wfEntriesB, Bool.and_eq_true] using h
      intro kv hkv
      rcases List.mem_cons.mp hkv with heq | hmem
      · subst heq
        exact needsUpdate_self v hh.1
      · exact needsUpdate_self_entries rest hh.2 kv hmem

end

theorem needsUpdate_lookupD_characterization (e : List (String × Yaml)) (k : String) (v : Yaml) :
    needsUpdate (objLookupD e k) v = true ↔
      (objLookup e k = none ∧ v ≠ .null) ∨
        (∃ v', objLookup e k = some v' ∧ needsUpdate v' v = true) := by
  cases hl : objLookup e k with
  | none =>
      rw [objLookupD, hl]
      constructor
      · intro ht
        by_cases hv : v = Yaml.null
        · rw [hv, needsUpdate_null_right] at ht
          cases ht
        · exact Or.inl ⟨rfl, hv⟩
      · rintro (⟨-, hv⟩ | ⟨v', hv', -⟩)
        · exact needsUpdate_null_left v hv
        · cases hv'
  | some v' =>
      rw [objLookupD, hl]
      constructor
      · intro ht
        exact Or.inr ⟨v', rfl, ht⟩
      · rintro (⟨hnone, -⟩ | ⟨v'', hsome, hn⟩)
        · cases hnone
        · cases hsome
          exact hn

/-- Claim C2 (amended): for two mappings, `needsUpdate` returns true iff
some key present in the new mapping either maps there to a non-null value
while being absent from the existing mapping, or is present in the
existing mapping with a recursively different value — a key of the new
mapping whose value is null never triggers an update, even when the key
is absent from the existing mapping.  Keys present only in the existing
mapping never make the result true (only the lookups at the new
mapping's keys matter), and for non-mapping scalars with a non-null new
value the result is true iff the two values are not equal. -/
theorem spec_C2_needsUpdate_mapping_characterization :
    (∀ e n : List (String × Yaml),
      needsUpdate (.obj e) (.obj n) = true ↔
        ∃ kv ∈ n,
          (objLookup e kv.1 = none ∧ kv.2 ≠ .null) ∨
            (∃ v', objLookup e kv.1 = some v' ∧ needsUpdate v' kv.2 = true)) ∧
    (∀ e e' n : List (String × Yaml),
      (∀ kv ∈ n, objLookupD e kv.1 = objLookupD e' kv.1) →
      needsUpdate (.obj e) (.obj n) = needsUpdate (.obj e') (.obj n)) ∧
    (∀ a b : Yaml, isScalarYaml a = true → isScalarYaml b = true → b ≠ .null →
      (needsUpdate a b = true ↔ a ≠ b)) := by
  refine ⟨?_, ?_, ?_⟩
  · intro e n
    rw [needsUpdate_obj_obj, needsUpdateKeys_eq_any, List.any_eq_true]
    constructor
    · rintro ⟨kv, hkv, ht⟩
      exact ⟨kv, hkv, (needsUpdate_lookupD_characterization e kv.1 kv.2).mp ht⟩
    · rintro ⟨kv, hkv, hc⟩
      exact ⟨kv, hkv, (needsUpdate_lookupD_characterization e kv.1 kv.2).mpr hc⟩
  · intro e e' n hagree
    rw [needsUpdate_obj_obj, needsUpdate_obj_obj, needsUpdateKeys_eq_any,
      needsUpdateKeys_eq_any]
    induction n with
    | nil => rfl
    | cons kv rest ih =>
        simp only [List.any_cons]
        rw [hagree kv (List.mem_cons_self kv rest),
          ih (fun kv' h' => hagree kv' (List.mem_cons_of_mem kv h'))]
  · intro a b ha hb hbnull
    cases a <;> cases b <;>
      simp_all [needsUpdate, isScalarYaml]

/-- Counterexample to claim C2 as stated: with `existing = {}` and
`new = {a: null}`, the key `a` is present in the new mapping and absent
from the existing one, so the claim requires `needsUpdate` to return
true, but the code returns false (a null new value is treated as
"nothing to add" before the key is ever looked up). -/
theorem spec_C2_counterexample :
    ¬ (needsUpdate (.obj ([] : List (String × Yaml))) (.obj [("a", .null)]) = true ↔
        ∃ kv ∈ [("a", (Yaml.null : Yaml))],
          objLookup ([] : List (String × Yaml)) kv.1 = none ∨
            (∃ v', objLookup ([] : List (String × Yaml)) kv.1 = some v' ∧
              needsUpdate v' kv.2 = true)) := by
  intro h
  have ht : needsUpdate (.obj ([] : List (String × Yaml))) (.obj [("a", .null)]) = true :=
    h.mpr ⟨("a", Yaml.null), by simp, Or.inl rfl⟩
  have hf : needsUpdate (.obj ([] : List (String × Yaml))) (.obj [("a", .null)]) = false := rfl
  rw [hf] at ht
  cases ht

theorem spec_C2_witness :
    needsUpdate (.num 1) (.num 2) = true ↔ (Yaml.num 1 ≠ Yaml.num 2) :=
  spec_C2_needsUpdate_mapping_characterization.2.2 (.num 1) (.num 2) rfl rfl
    (fun h => Yaml.noConfusion h)

/-- Claim C3 (amended): `needsUpdate(existing, new)` is false for every
`existing` whenever `new` is null/undefined; for `new = {}` it is false
whenever `existing` is itself a mapping, but true whenever `existing` is
not a mapping (null, a scalar, or a sequence). -/
theorem spec_C3_needsUpdate_null_or_empty :
    (∀ e : Yaml, needsUpdate e .null = false) ∧
    (∀ es : List (String × Yaml), needsUpdate (.obj es) (.obj []) = false) ∧
    (∀ e : Yaml, isMappingYaml e = false → needsUpdate e (.obj []) = true) := by
  refine ⟨needsUpdate_null_right, ?_, ?_⟩
  · intro es
    rfl
  · intro e he
    cases e <;> first | rfl | cases he

/-- Counterexample to claim C3 as stated: the claim asserts
`needsUpdate(existing, {})` is false for every `existing`, but the code
returns true when `existing` is null and when `existing` is a scalar. -/
theorem spec_C3_counterexample :
    needsUpdate .null (.obj []) = true ∧ needsUpdate (.str "x") (.obj []) = true :=
  ⟨rfl, rfl⟩

theorem spec_C3_witness : needsUpdate (.num 5) (.obj []) = true :=
  spec_C3_needsUpdate_null_or_empty.2.2 (.num 5) rfl

theorem sanitize_data_filterMap (l : List Char) :
    (l.filter (fun c => c ≠ ':')).map
        (fun c => if c ∈ ['*', '"', '/', '\\', '<', '>', '|', '?'] then '-' else c) =
      l.filterMap (fun c =>
        if c = ':' then none
        else if c ∈ ['*', '"', '/', '\\', '<', '>', '|', '?'] then some '-' else some c) := by
  induction l with
  | nil => rfl
  | cons c cs ih =>
      by_cases hc : c = ':'
      · subst hc
        simpa [List.filter_cons, List.filterMap_cons] using ih
      · by_cases hb : c = '*' ∨ c = '"' ∨ c = '/' ∨ c = '\\' ∨ c = '<' ∨ c = '>' ∨
            c = '|' ∨ c = '?' <;>
          simpa [List.filter_cons, List.filterMap_cons, hc, hb] using ih

/-- Claim C5: the sanitized filename contains no occurrence of any of the
characters colon, asterisk, double quote, slash, backslash, less-than,
greater-than, pipe, question mark; colons are removed entirely, each of
the other listed characters is replaced by a hyphen, and all remaining
characters of the input are preserved in order (the output is exactly
the character-wise image of the colon-free input). -/
theorem spec_C5_sanitizeFileName :
    (∀ s : String, ∀ c ∈ (sanitizeFileName s).data,
        c ∉ [':', '*', '"', '/', '\\', '<', '>', '|', '?']) ∧
    (∀ s : String, (sanitizeFileName s).data =
        s.data.filterMap (fun c =>
          if c = ':' then none
          else if c ∈ ['*', '"', '/', '\\', '<', '>', '|', '?'] then some '-' else some c)) ∧
    sanitizeFileName "Fix: a/b*c?" = "Fix a-b-c-" := by
  have hdata : ∀ s : String, (sanitizeFileName s).data =
      s.data.filterMap (fun c =>
        if c = ':' then none
        else if c ∈ ['*', '"', '/', '\\', '<', '>', '|', '?'] then some '-' else some c) := by
    intro s
    rw [show (sanitizeFileName s).data =
        (s.data.filter (fun c => c ≠ ':')).map
          (fun c => if c ∈ ['*', '"', '/', '\\', '<', '>', '|', '?'] then '-' else c) from rfl]
    exact sanitize_data_filterMap s.data
  refine ⟨?_, hdata, rfl⟩
  intro s c hc
  rw [hdata s] at hc
  obtain ⟨a, ha, hfa⟩ := List.mem_filterMap.mp hc
  by_cases ha1 : a = ':'
  · rw [if_pos ha1] at hfa
    cases hfa
  · rw [if_neg ha1] at hfa
    by_cases ha2 : a ∈ ['*', '"', '/', '\\', '<', '>', '|', '?']
    · rw [if_pos ha2] at hfa
      cases hfa
      decide
    · rw [if_neg ha2] at hfa
      cases hfa
      simp only [List.mem_cons, List.not_mem_nil, or_false] at ha2 ⊢
      push_neg
      push_neg at ha2
      exact ⟨ha1, ha2⟩

theorem spec_C5_witness :
    ('F' ∈ (sanitizeFileName "Fix: a/b*c?").data) ∧
      'F' ∉ [':', '*', '"', '/', '\\', '<', '>', '|', '?'] :=
  ⟨by decide, spec_C5_sanitizeFileName.1 "Fix: a/b*c?" 'F' (by decide)⟩

theorem mapThrow_error_of_mem {α β ε : Type} (f : α → Except ε β) (l : List α) (x : α)
    (hx : x ∈ l) (e : ε) (hf : f x = .error e) :
    ∃ e', mapThrow f l = .error e' := by
  induction l with
  | nil => cases hx
  | cons y ys ih =>
      rcases List.mem_cons.mp hx with h | h
      · subst h
        exact ⟨e, by rw [mapThrow, hf]⟩
      · cases hfy : f y with
        | error e2 => exact ⟨e2, by rw [mapThrow, hfy]⟩
        | ok b =>
            obtain ⟨e', he'⟩ := ih h
            exact ⟨e', by rw [mapThrow, hfy, he']⟩

theorem parseEntry_badType (entry : String)
    (hG : entryTypeOf entry ≠ "G") (hP : entryTypeOf entry ≠ "P") :
    parseEntry entry = .error (.invalidSourceType (entryTypeOf entry)) := by
  rw [show parseEntry entry =
      (if entryTypeOf entry = "G" then
        match (jsSplit entry ':').get? 1 with
        | some id => .ok (.group, jsTrim id)
        | none => .error .undefinedId
      else if entryTypeOf entry = "P" then
        match (jsSplit entry ':').get? 1 with
        | some id => .ok (.project, jsTrim id)
        | none => .error .undefinedId
      else .error (.invalidSourceType (entryTypeOf entry))) from rfl]
  rw [if_neg hG, if_neg hP]

/-- Claim C4 (amended): the custom-scope parser splits the identifier on
commas, trims whitespace, and splits each entry on colons taking the
trimmed first segment as case-insensitive type letter and the second
segment as the id — text after a second colon is discarded, rather than
kept as part of the id.  `"P:123, G:45"` yields exactly the project
target `123` followed by the group target `45`, and an entry whose type
letter is neither `P` nor `G` (case-insensitive) makes the whole parse
fail. -/
theorem spec_C4_parseCustomSources :
    parseCustomSources "P:123, G:45" = .ok [(.project, "123"), (.group, "45")] ∧
    parseCustomSources "p:7, g:8" = .ok [(.project, "7"), (.group, "8")] ∧
    parseCustomSources "P:1:2" = .ok [(.project, "1")] ∧
    (∀ (customString entry : String),
      entry ∈ ((jsSplit customString ',').map jsTrim).filter (fun s => s.length > 0) →
      entryTypeOf entry ≠ "G" → entryTypeOf entry ≠ "P" →
      ∃ err, parseCustomSources customString = .error err) := by
  refine ⟨rfl, rfl, rfl, ?_⟩
  intro customString entry hmem hG hP
  exact mapThrow_error_of_mem parseEntry _ entry hmem _ (parseEntry_badType entry hG hP)

/-- Counterexample to claim C4 as stated: on the entry `P:1:2` a split on
the first colon would produce the id `1:2`, but the code produces the id
`1` (the destructuring keeps only the segment between the first and the
second colon). -/
theorem spec_C4_counterexample :
    parseCustomSources "P:1:2" = .ok [(.project, "1")] ∧
      parseCustomSources "P:1:2" ≠ .ok [(.project, "1:2")] := by
  refine ⟨rfl, ?_⟩
  intro h
  rw [show parseCustomSources "P:1:2" = .ok [(.project, "1")] from rfl] at h
  simp only [Except.ok.injEq, List.cons.injEq, Prod.mk.injEq, and_true, true_and] at h
  exact absurd h (by decide)

theorem spec_C4_witness :
    ∃ err, parseCustomSources "X:1" = .error err :=
  spec_C4_parseCustomSources.2.2.2 "X:1" "X:1" (by decide) (by decide) (by decide)

/-- Claim C10: entries that are empty after comma-splitting and trimming
are discarded, so identifier strings with trailing, leading or
consecutive commas parse to exactly the targets of the non-empty
entries, in input order, with no error contributed by the empty
entries: inserting a whitespace-only piece anywhere in the comma-split
piece list leaves the parse result unchanged. -/
theorem spec_C10_empty_entries_discarded :
    parseCustomSources "P:1,," = .ok [(.project, "1")] ∧
    parseCustomSources ", G:2" = .ok [(.group, "2")] ∧
    (∀ (ps qs : List String) (w : String), jsTrim w = "" →
      parseSourceEntryList (ps ++ w :: qs) = parseSourceEntryList (ps ++ qs)) := by
  refine ⟨rfl, rfl, ?_⟩
  intro ps qs w hw
  simp only [parseSourceEntryList, List.map_append, List.map_cons, List.filter_append,
    List.filter_cons, hw]
  rfl

theorem spec_C10_witness :
    parseSourceEntryList (["P:1"] ++ " " :: []) = parseSourceEntryList (["P:1"] ++ []) :=
  spec_C10_empty_entries_discarded.2.2 ["P:1"] [] " " rfl

/-- Claim C9 (amended): with `diffDays` the ceiling of the absolute
millisecond difference in days, the formatter returns `"1 day ago"` when
`diffDays` is 1, `"N days ago"` when `diffDays` is below 30 (including
`"0 days ago"` at zero), a month count `diffDays / 30` below 365 and a
year count `diffDays / 365` otherwise — with the plural `s` dropped when
the count is exactly one; any two distinct timestamps give
`diffDays ≥ 1`, but two equal timestamps (which are on the same day)
give `diffDays = 0`. -/
theorem spec_C9_formatDate :
    ∀ dateMs nowMs : Int,
      (diffDaysOf dateMs nowMs = 1 → formatDate dateMs nowMs = "1 day ago") ∧
      (diffDaysOf dateMs nowMs ≠ 1 → diffDaysOf dateMs nowMs < 30 →
        formatDate dateMs nowMs = toString (diffDaysOf dateMs nowMs) ++ " days ago") ∧
      (30 ≤ diffDaysOf dateMs nowMs → diffDaysOf dateMs nowMs < 365 →
        formatDate dateMs nowMs =
          toString (diffDaysOf dateMs nowMs / 30) ++ " month" ++
            (if diffDaysOf dateMs nowMs / 30 > 1 then "s" else "") ++ " ago") ∧
      (365 ≤ diffDaysOf dateMs nowMs →
        formatDate dateMs nowMs =
          toString (diffDaysOf dateMs nowMs / 365) ++ " year" ++
            (if diffDaysOf dateMs nowMs / 365 > 1 then "s" else "") ++ " ago") ∧
      (dateMs ≠ nowMs → 1 ≤ diffDaysOf dateMs nowMs) ∧
      (dateMs = nowMs → diffDaysOf dateMs nowMs = 0) := by
  intro dateMs nowMs
  have hfd : formatDate dateMs nowMs =
      (if diffDaysOf dateMs nowMs = 1 then "1 day ago"
       else if diffDaysOf dateMs nowMs < 30 then
         toString (diffDaysOf dateMs nowMs) ++ " days ago"
       else if diffDaysOf dateMs nowMs < 365 then
         toString (diffDaysOf dateMs nowMs / 30) ++ " month" ++
           (if diffDaysOf dateMs nowMs / 30 > 1 then "s" else "") ++ " ago"
       else
         toString (diffDaysOf dateMs nowMs / 365) ++ " year" ++
           (if diffDaysOf dateMs nowMs / 365 > 1 then "s" else "") ++ " ago") := rfl
  refine ⟨?_, ?_, ?_, ?_, ?_, ?_⟩
  · intro h
    rw [hfd, if_pos h]
  · intro h1 h2
    rw [hfd, if_neg h1, if_pos h2]
  · intro h1 h2
    rw [hfd, if_neg (by omega), if_neg (by omega), if_pos h2]
  · intro h1
    rw [hfd, if_neg (by omega), if_neg (by omega), if_neg (by omega)]
  · intro hne
    have hsub : nowMs - dateMs ≠ 0 := sub_ne_zero.mpr (Ne.symm hne)
    have hpos : 1 ≤ (nowMs - dateMs).natAbs := Int.natAbs_pos.mpr hsub
    rw [diffDaysOf]
    rw [Nat.le_div_iff_mul_le (by norm_num)]
    omega
  · intro heq
    subst heq
    rw [diffDaysOf]
    simp

/-- Counterexample to claim C9 as stated: two equal timestamps are on the
same day, yet the computed `diffDays` is 0 (the ceiling of zero), and
the formatter renders `"0 days ago"`; moreover at `diffDays = 30` the
formatter renders the singular `"1 month ago"`, not `"1 months ago"`. -/
theorem spec_C9_counterexample :
    diffDaysOf 0 0 = 0 ∧ formatDate 0 0 = "0 days ago" ∧
      formatDate 0 2592000000 = "1 month ago" ∧
      ("1 month ago" : String) ≠ "1 months ago" :=
  ⟨rfl, rfl, rfl, by decide⟩

theorem spec_C9_witness : formatDate 0 86400000 = "1 day ago" :=
  (spec_C9_formatDate 0 86400000).1 rfl

/-- Claim C7: whenever the `isLoading` flag is set, an invocation of the
synchronizer entry point through any of the user-facing triggers
(command palette, status-bar click, ribbon icon, interval timer, startup
timeout) returns immediately with the state unchanged and no fetch and
no file write, and nothing is queued — the state after the call is the
state before it. -/
theorem spec_C7_isLoading_gate :
    ∀ (runLoader : Vault → Vault × List FileOp) (s : PluginState),
      s.isLoading = true →
      fetchFromGitlab runLoader s = (s, []) ∧
      statusBarClickTrigger runLoader s = (s, []) ∧
      commandPaletteTrigger runLoader s = (s, []) ∧
      ribbonIconTrigger runLoader s = (s, []) ∧
      intervalTrigger runLoader s = (s, []) ∧
      startupTrigger runLoader s = (s, []) := by
  intro runLoader s h
  have hfetch : fetchFromGitlab runLoader s = (s, []) := by
    rw [fetchFromGitlab, if_pos h]
  refine ⟨hfetch, ?_, ?_, hfetch, hfetch, hfetch⟩
  · rw [statusBarClickTrigger, h]
    simp
  · rw [commandPaletteTrigger, h]
    simp

theorem spec_C7_witness :
    fetchFromGitlab (fun v => (v, [])) ⟨true, []⟩ = (⟨true, []⟩, []) ∧
      statusBarClickTrigger (fun v => (v, [])) ⟨true, []⟩ = (⟨true, []⟩, []) ∧
      commandPaletteTrigger (fun v => (v, [])) ⟨true, []⟩ = (⟨true, []⟩, []) ∧
      ribbonIconTrigger (fun v => (v, [])) ⟨true, []⟩ = (⟨true, []⟩, []) ∧
      intervalTrigger (fun v => (v, [])) ⟨true, []⟩ = (⟨true, []⟩, []) ∧
      startupTrigger (fun v => (v, [])) ⟨true, []⟩ = (⟨true, []⟩, []) :=
  spec_C7_isLoading_gate (fun v => (v, [])) ⟨true, []⟩ rfl

/-- Claim C8: an anchor whose address parses as a URL with a host
different from the host of the configured tracker base URL is never
among the links the decorator acts on (no loading affordance, no fetch,
no replacement), and every link the decorator does act on has the
configured host and a pathname matching the issue-path shape. -/
theorem spec_C8_host_mismatch_untouched :
    (∀ (parseUrl : String → Option UrlParts) (gitlabToken gitlabUrl : String)
        (links : List String) (href : String) (u g : UrlParts),
      parseUrl href = some u → parseUrl gitlabUrl = some g → u.host ≠ g.host →
      href ∉ processElementLinks parseUrl gitlabToken gitlabUrl links) ∧
    (∀ (parseUrl : String → Option UrlParts) (gitlabToken gitlabUrl : String)
        (links : List String) (href : String),
      href ∈ processElementLinks parseUrl gitlabToken gitlabUrl links →
      href ∈ links ∧ ∃ u g, parseUrl href = some u ∧ parseUrl gitlabUrl = some g ∧
        u.host = g.host ∧ pathRegexTest u.pathname = true) := by
  constructor
  · intro parseUrl tok gurl links href u g hu hg hne hmem
    by_cases htok : tok = ""
    · rw [processElementLinks, if_pos htok] at hmem
      exact List.not_mem_nil href hmem
    · rw [processElementLinks, if_neg htok] at hmem
      have hcond := (List.mem_filter.mp hmem).2
      simp only [Bool.and_eq_true] at hcond
      have hgit := hcond.2
      simp only [isGitlabIssueUrl, hu, hg, Bool.and_eq_true, decide_eq_true_eq] at hgit
      exact hne hgit.1
  · intro parseUrl tok gurl links href hmem
    by_cases htok : tok = ""
    · rw [processElementLinks, if_pos htok] at hmem
      exact absurd hmem (List.not_mem_nil href)
    · rw [processElementLinks, if_neg htok] at hmem
      obtain ⟨hlink, hcond⟩ := List.mem_filter.mp hmem
      refine ⟨hlink, ?_⟩
      simp only [Bool.and_eq_true] at hcond
      have hgit := hcond.2
      cases hu : parseUrl href with
      | none =>
          simp only [isGitlabIssueUrl, hu] at hgit
          cases hgit
      | some u =>
          cases hg : parseUrl gurl with
          | none =>
              simp only [isGitlabIssueUrl, hu, hg] at hgit
              cases hgit
          | some g =>
              simp only [isGitlabIssueUrl, hu, hg, Bool.and_eq_true,
                decide_eq_true_eq] at hgit
              exact ⟨u, g, rfl, rfl, hgit.1, hgit.2⟩

theorem spec_C8_witness :
    "https://gitlab.example.com/group/proj/-/issues/42" ∉
      processElementLinks
        (fun s =>
          if s = "https://gitlab.example.com/group/proj/-/issues/42" then
            some ⟨"gitlab.example.com", "/group/proj/-/issues/42"⟩
          else if s = "https://tracker.example.org" then
            some ⟨"tracker.example.org", "/"⟩
          else none)
        "token" "https://tracker.example.org"
        ["https://gitlab.example.com/group/proj/-/issues/42"] :=
  spec_C8_host_mismatch_untouched.1 _ "token" "https://tracker.example.org" _ _
    ⟨"gitlab.example.com", "/group/proj/-/issues/42"⟩ ⟨"tracker.example.org", "/"⟩
    rfl rfl (by decide)

/-- Claim C6: a custom-scope run is all-or-nothing — when the custom
sources parse and any single per-source request fails, the whole run
fails: no issue from any source (including the sources whose requests
succeeded) is mapped, no purge happens, and no file is created or
updated; the vault is left unchanged with an empty write list. -/
theorem spec_C6_custom_fetch_all_or_nothing :
    ∀ (fetch : SourceType × String → Except String (List RawIssue))
      (mapper : RawIssue → ObsidianIssue) (outputDir : String)
      (template : ObsidianIssue → VFile) (purgeIssues : Bool)
      (vault : Vault) (customString : String)
      (sources : List (SourceType × String)) (src : SourceType × String) (e : String),
      parseCustomSources customString = .ok sources →
      src ∈ sources → fetch src = .error e →
      loadCustomIssuesRun fetch mapper outputDir template purgeIssues vault customString
        = (vault, []) := by
  intro fetch mapper outputDir template purgeIssues vault customString sources src e
    hparse hsrc hfetch
  obtain ⟨e', he'⟩ := mapThrow_error_of_mem fetch sources src hsrc e hfetch
  simp [loadCustomIssuesRun, hparse, he']

theorem vaultGet_vaultSet_same (v : Vault) (p : String) (f : VFile) :
    vaultGet (vaultSet v p f) p = some f := by
  induction v with
  | nil => simp [vaultGet, vaultSet, List.find?]
  | cons e es ih =>
      by_cases he : e.1 = p
      · simp [vaultSet, he, vaultGet, List.find?]
      · simp only [vaultSet, he, if_false]
        simpa [vaultGet, List.find?, he] using ih

theorem vaultGet_vaultSet_other (v : Vault) (p : String) (f : VFile) (q : String)
    (hq : q ≠ p) :
    vaultGet (vaultSet v p f) q = vaultGet v q := by
  have hq' : ¬(p = q) := fun h => hq h.symm
  induction v with
  | nil => simp [vaultGet, vaultSet, List.find?, hq']
  | cons e es ih =>
      by_cases he : e.1 = p
      · subst he
        simp [vaultSet, vaultGet, List.find?, hq']
      · by_cases heq : e.1 = q
        · simp only [vaultSet, he, if_false]
          simp [vaultGet, List.find?, heq]
        · simp only [vaultSet, he, if_false]
          simpa [vaultGet, List.find?, heq] using ih

theorem objLookup_objSet_same (es : List (String × Yaml)) (k : String) (v : Yaml) :
    objLookup (objSet es k v) k = some v := by
  induction es with
  | nil => simp [objLookup, objSet, List.find?]
  | cons e rest ih =>
      by_cases he : e.1 = k
      · simp [objSet, he, objLookup, List.find?]
      · simp only [objSet, he, if_false]
        simpa [objLookup, List.find?, he] using ih

theorem objLookup_objSet_other (es : List (String × Yaml)) (k : String) (v : Yaml)
    (q : String) (hq : q ≠ k) :
    objLookup (objSet es k v) q = objLookup es q := by
  have hq' : ¬(k = q) := fun h => hq h.symm
  induction es with
  | nil => simp [objLookup, objSet, List.find?, hq']
  | cons e rest ih =>
      by_cases he : e.1 = k
      · subst he
        simp [objSet, objLookup, List.find?, hq']
      · by_cases heq : e.1 = q
        · simp only [objSet, he, if_false]
          simp [objLookup, List.find?, heq]
        · simp only [objSet, he, if_false]
          simpa [objLookup, List.find?, heq] using ih

theorem not_mem_of_contains_false (l : List String) (a : String)
    (h : l.contains a = false) : a ∉ l := by
  intro hmem
  rw [← List.elem_iff] at hmem
  rw [show l.contains a = l.elem a from rfl] at h
  rw [h] at hmem
  cases hmem

theorem objAssign_nil_source (target : List (String × Yaml)) :
    objAssign target [] = target := rfl

theorem objAssign_cons_source (target : List (String × Yaml)) (kv : String × Yaml)
    (rest : List (String × Yaml)) :
    objAssign target (kv :: rest) = objAssign (objSet target kv.1 kv.2) rest := rfl

theorem objLookup_objAssign_notin (source : List (String × Yaml)) :
    ∀ (target : List (String × Yaml)) (k : String),
      k ∉ source.map Prod.fst →
      objLookup (objAssign target source) k = objLookup target k := by
  induction source with
  | nil => intro target k _; rfl
  | cons kv rest ih =>
      intro target k hk
      simp only [List.map_cons, List.mem_cons, not_or] at hk
      rw [objAssign_cons_source, ih (objSet target kv.1 kv.2) k hk.2,
        objLookup_objSet_other target kv.1 kv.2 k (fun h => hk.1 h)]

theorem objLookup_objAssign_mem (source : List (String × Yaml)) :
    ∀ (target : List (String × Yaml)) (k : String) (v : Yaml),
      nodupKeys (source.map Prod.fst) = true → (k, v) ∈ source →
      objLookup (objAssign target source) k = some v := by
  induction source with
  | nil => intro _ _ _ _ hmem; cases hmem
  | cons kv rest ih =>
      intro target k v hnd hmem
      simp only [List.map_cons, nodupKeys, Bool.and_eq_true, Bool.not_eq_true'] at hnd
      rcases List.mem_cons.mp hmem with h | h
      · subst h
        have hnotin : k ∉ rest.map Prod.fst :=
          not_mem_of_contains_false (rest.map Prod.fst) k hnd.1
        rw [objAssign_cons_source, objLookup_objAssign_notin rest _ k hnotin,
          objLookup_objSet_same]
      · rw [objAssign_cons_source]
        exact ih (objSet target kv.1 kv.2) k v hnd.2 h

theorem needsUpdate_frontmatterAssign (E : Yaml) (n : List (String × Yaml))
    (hE : fmMergeable E = true) (hn : Yaml.wfB (.obj n) = true) :
    needsUpdate (frontmatterAssign E (.obj n)) (.obj n) = false := by
  have hnd : nodupKeys (n.map Prod.fst) = true ∧ wfEntriesB n = true := by
    simpa [Yaml.wfB, Bool.and_eq_true] using hn
  have hvals := needsUpdate_self_entries n hnd.2
  have hmain : ∀ target : List (String × Yaml),
      needsUpdate (.obj (objAssign target n)) (.obj n) = false := by
    intro target
    rw [needsUpdate_obj_obj]
    apply needsUpdateKeys_false_of_lookup
    intro kv hkv
    rw [objLookupD, objLookup_objAssign_mem n target kv.1 kv.2 hnd.1 hkv,
      Option.getD_some]
    exact hvals kv hkv
  cases E with
  | null => exact hmain []
  | obj te => exact hmain te
  | bool b => simp [fmMergeable] at hE
  | num m => simp [fmMergeable] at hE
  | str s => simp [fmMergeable] at hE
  | arr l => simp [fmMergeable] at hE

theorem fmMergeable_of_fmWellFormed (y : Yaml) (h : fmWellFormed y = true) :
    fmMergeable y = true := by
  cases y <;> simp_all [fmWellFormed, fmMergeable]

theorem needsUpdate_self_of_fmWellFormed (y : Yaml) (h : fmWellFormed y = true) :
    needsUpdate y y = false := by
  cases y with
  | null => rfl
  | obj es => exact needsUpdate_self _ (by simpa [fmWellFormed] using h)
  | bool b => simp [fmWellFormed] at h
  | num m => simp [fmWellFormed] at h
  | str s => simp [fmWellFormed] at h
  | arr l => simp [fmWellFormed] at h

theorem saveOrUpdateIssue_vault_other (out : String) (t : ObsidianIssue → VFile)
    (v : Vault) (i : ObsidianIssue) (q : String) (hq : q ≠ buildFileName out i) :
    vaultGet (saveOrUpdateIssue out t v i).1 q = vaultGet v q := by
  simp only [saveOrUpdateIssue]
  cases hv : vaultGet v (buildFileName out i) with
  | none => simp [hv, vaultGet_vaultSet_other v (buildFileName out i) (t i) q hq]
  | some ef =>
      by_cases hnu : needsUpdate ef.frontmatter (t i).frontmatter = true
      · simp [hv, hnu, vaultGet_vaultSet_other v (buildFileName out i) _ q hq]
      · simp [hv, hnu]

theorem saveOrUpdateIssue_post (out : String) (t : ObsidianIssue → VFile)
    (v : Vault) (i : ObsidianIssue)
    (hT : fmWellFormed ((t i).frontmatter) = true)
    (hV : ∀ f, vaultGet v (buildFileName out i) = some f → fmMergeable f.frontmatter = true) :
    ∃ f', vaultGet (saveOrUpdateIssue out t v i).1 (buildFileName out i) = some f' ∧
      needsUpdate f'.frontmatter ((t i).frontmatter) = false ∧
      fmMergeable f'.frontmatter = true := by
  simp only [saveOrUpdateIssue]
  cases hv : vaultGet v (buildFileName out i) with
  | none =>
      refine ⟨t i, ?_, ?_, ?_⟩
      · simp [hv, vaultGet_vaultSet_same]
      · exact needsUpdate_self_of_fmWellFormed _ hT
      · exact fmMergeable_of_fmWellFormed _ hT
  | some ef =>
      by_cases hnu : needsUpdate ef.frontmatter ((t i).frontmatter) = true
      · refine ⟨{ ef with frontmatter := frontmatterAssign ef.frontmatter ((t i).frontmatter) },
          ?_, ?_, ?_⟩
        · simp [hv, hnu, vaultGet_vaultSet_same]
        · cases hX : (t i).frontmatter with
          | null =>
              rw [hX, needsUpdate_null_right] at hnu
              cases hnu
          | obj n =>
              have hE := hV ef hv
              have hwf : Yaml.wfB (.obj n) = true := by
                rw [hX] at hT
                simpa [fmWellFormed] using hT
              exact needsUpdate_frontmatterAssign ef.frontmatter n hE hwf
          | bool b => rw [hX] at hT; simp [fmWellFormed] at hT
          | num m => rw [hX] at hT; simp [fmWellFormed] at hT
          | str sv => rw [hX] at hT; simp [fmWellFormed] at hT
          | arr l => rw [hX] at hT; simp [fmWellFormed] at hT
        · have hE := hV ef hv
          cases hX : (t i).frontmatter with
          | null =>
              rw [hX, needsUpdate_null_right] at hnu
              cases hnu
          | obj n =>
              cases hEf : ef.frontmatter with
              | null => simp [frontmatterAssign, fmMergeable]
              | obj te => simp [frontmatterAssign, fmMergeable]
              | bool b => rw [hEf] at hE; simp [fmMergeable] at hE
              | num m => rw [hEf] at hE; simp [fmMergeable] at hE
              | str sv => rw [hEf] at hE; simp [fmMergeable] at hE
              | arr l => rw [hEf] at hE; simp [fmMergeable] at hE
          | bool b => rw [hX] at hT; simp [fmWellFormed] at hT
          | num m => rw [hX] at hT; simp [fmWellFormed] at hT
          | str sv => rw [hX] at hT; simp [fmWellFormed] at hT
          | arr l => rw [hX] at hT; simp [fmWellFormed] at hT
      · have hnu' : needsUpdate ef.frontmatter ((t i).frontmatter) = false := by
          simpa using hnu
        exact ⟨ef, by simp [hv, hnu'], hnu', hV ef hv⟩

theorem saveOrUpdateIssue_mergeable (out : String) (t : ObsidianIssue → VFile)
    (v : Vault) (i : ObsidianIssue)
    (hT : fmWellFormed ((t i).frontmatter) = true)
    (hV : ∀ p f, vaultGet v p = some f → fmMergeable f.frontmatter = true) :
    ∀ p f, vaultGet (saveOrUpdateIssue out t v i).1 p = some f →
      fmMergeable f.frontmatter = true := by
  intro p f hget
  by_cases hp : p = buildFileName out i
  · subst hp
    obtain ⟨f', hf', -, hm⟩ :=
      saveOrUpdateIssue_post out t v i hT (fun g hg => hV _ g hg)
    rw [hget] at hf'
    cases hf'
    exact hm
  · rw [saveOrUpdateIssue_vault_other out t v i p hp] at hget
    exact hV p f hget

theorem processIssues_foldl_acc (out : String) (t : ObsidianIssue → VFile)
    (is : List ObsidianIssue) :
    ∀ (v : Vault) (acc : List FileOp),
      is.foldl
          (fun a issue =>
            let r := saveOrUpdateIssue out t a.1 issue
            (r.1, a.2 ++ r.2))
          (v, acc)
        = ((processIssues out t v is).1, acc ++ (processIssues out t v is).2) := by
  induction is with
  | nil =>
      intro v acc
      simp [processIssues]
  | cons i rest ih =>
      intro v acc
      have h2 : processIssues out t v (i :: rest) =
          ((processIssues out t (saveOrUpdateIssue out t v i).1 rest).1,
            ([] ++ (saveOrUpdateIssue out t v i).2) ++
              (processIssues out t (saveOrUpdateIssue out t v i).1 rest).2) := by
        show List.foldl _
            ((saveOrUpdateIssue out t v i).1, [] ++ (saveOrUpdateIssue out t v i).2)
            rest = _
        rw [ih]
      show List.foldl
          (fun a issue =>
            let r := saveOrUpdateIssue out t a.1 issue
            (r.1, a.2 ++ r.2))
          ((saveOrUpdateIssue out t v i).1, acc ++ (saveOrUpdateIssue out t v i).2)
          rest =
        ((processIssues out t v (i :: rest)).1, acc ++ (processIssues out t v (i :: rest)).2)
      rw [ih, h2]
      simp

theorem processIssues_cons (out : String) (t : ObsidianIssue → VFile)
    (v : Vault) (i : ObsidianIssue) (is : List ObsidianIssue) :
    processIssues out t v (i :: is) =
      ((processIssues out t (saveOrUpdateIssue out t v i).1 is).1,
        (saveOrUpdateIssue out t v i).2 ++
          (processIssues out t (saveOrUpdateIssue out t v i).1 is).2) := by
  rw [show processIssues out t v (i :: is) =
      List.foldl
        (fun (a : Vault × List FileOp) issue =>
          let r := saveOrUpdateIssue out t a.1 issue
          (r.1, a.2 ++ r.2))
        ((saveOrUpdateIssue out t v i).1, [] ++ (saveOrUpdateIssue out t v i).2)
        is from rfl]
  rw [processIssues_foldl_acc]
  simp

theorem processIssues_vault_other (out : String) (t : ObsidianIssue → VFile)
    (is : List ObsidianIssue) :
    ∀ (v : Vault) (q : String), q ∉ is.map (buildFileName out) →
      vaultGet (processIssues out t v is).1 q = vaultGet v q := by
  induction is with
  | nil => intro v q _; rfl
  | cons i rest ih =>
      intro v q hq
      simp only [List.map_cons, List.mem_cons, not_or] at hq
      rw [processIssues_cons]
      dsimp only
      rw [ih (saveOrUpdateIssue out t v i).1 q hq.2,
        saveOrUpdateIssue_vault_other out t v i q hq.1]

theorem processIssues_mergeable (out : String) (t : ObsidianIssue → VFile)
    (is : List ObsidianIssue) :
    ∀ (v : Vault),
      (∀ i ∈ is, fmWellFormed ((t i).frontmatter) = true) →
      (∀ p f, vaultGet v p = some f → fmMergeable f.frontmatter = true) →
      ∀ p f, vaultGet (processIssues out t v is).1 p = some f →
        fmMergeable f.frontmatter = true := by
  induction is with
  | nil => intro v _ hV p f hget; exact hV p f hget
  | cons i rest ih =>
      intro v hT hV p f hget
      rw [processIssues_cons] at hget
      dsimp only at hget
      exact ih (saveOrUpdateIssue out t v i).1
        (fun j hj => hT j (List.mem_cons_of_mem i hj))
        (saveOrUpdateIssue_mergeable out t v i (hT i (List.mem_cons_self i rest)) hV)
        p f hget

theorem processIssues_establishes (out : String) (t : ObsidianIssue → VFile)
    (is : List ObsidianIssue) :
    ∀ (v : Vault),
      (is.map (buildFileName out)).Nodup →
      (∀ i ∈ is, fmWellFormed ((t i).frontmatter) = true) →
      (∀ p f, vaultGet v p = some f → fmMergeable f.frontmatter = true) →
      ∀ i ∈ is, ∃ f, vaultGet (processIssues out t v is).1 (buildFileName out i) = some f ∧
        needsUpdate f.frontmatter ((t i).frontmatter) = false := by
  induction is with
  | nil => intro v _ _ _ i hi; cases hi
  | cons i rest ih =>
      intro v hnd hT hV j hj
      have hndh := List.nodup_cons.mp hnd
      rw [processIssues_cons]
      dsimp only
      rcases List.mem_cons.mp hj with h | h
      · subst h
        obtain ⟨f', hf', hnu, -⟩ :=
          saveOrUpdateIssue_post out t v j (hT j (List.mem_cons_self j rest))
            (fun g hg => hV _ g hg)
        refine ⟨f', ?_, hnu⟩
        rw [processIssues_vault_other out t rest (saveOrUpdateIssue out t v j).1
          (buildFileName out j) hndh.1]
        exact hf'
      · exact ih (saveOrUpdateIssue out t v i).1 hndh.2
          (fun k hk => hT k (List.mem_cons_of_mem i hk))
          (saveOrUpdateIssue_mergeable out t v i (hT i (List.mem_cons_self i rest)) hV)
          j h

theorem processIssues_skip (out : String) (t : ObsidianIssue → VFile)
    (is : List ObsidianIssue) :
    ∀ (v : Vault),
      (∀ i ∈ is, ∃ f, vaultGet v (buildFileName out i) = some f ∧
        needsUpdate f.frontmatter ((t i).frontmatter) = false) →
      processIssues out t v is = (v, []) := by
  induction is with
  | nil => intro v _; rfl
  | cons i rest ih =>
      intro v h
      obtain ⟨f, hf, hnu⟩ := h i (List.mem_cons_self i rest)
      have hstep : saveOrUpdateIssue out t v i = (v, []) := by
        simp only [saveOrUpdateIssue]
        simp [hf, hnu]
      rw [processIssues_cons, hstep]
      dsimp only
      rw [ih v (fun j hj => h j (List.mem_cons_of_mem i hj))]
      rfl

theorem buildFileName_inj (out : String) :
    Function.Injective (fun f : String => out ++ "/" ++ f ++ ".md") := by
  intro a b hab
  have hd : ((out ++ "/").data ++ a.data) ++ ".md".data =
      ((out ++ "/").data ++ b.data) ++ ".md".data := by
    have := congrArg String.data hab
    simpa [show ∀ x y : String, (x ++ y).data = x.data ++ y.data from fun x y => rfl,
      List.append_assoc] using this
  have h1 : (out ++ "/").data ++ a.data = (out ++ "/").data ++ b.data :=
    List.append_cancel_right hd
  have h2 : a.data = b.data := List.append_cancel_left h1
  exact String.ext h2

/-- Claim C1 (amended): running the reconcile step twice in a row over
the same issue list with the same template and no intervening edits
performs zero writes on the second run (no create and no frontmatter
write for any issue), provided the issues' filenames are pairwise
distinct and frontmatters lie in the frontmatter data model: the
rendered frontmatter of each issue is either absent or a
duplicate-key-free mapping, and every pre-existing file's frontmatter is
absent or a mapping.  Two issues whose titles sanitize to the same
filename break idempotence: their alternating frontmatter merges write
on every run. -/
theorem spec_C1_reconcile_idempotent :
    ∀ (outputDir : String) (template : ObsidianIssue → VFile)
      (vault : Vault) (issues : List ObsidianIssue),
      (issues.map (fun i => i.filename)).Nodup →
      (∀ i ∈ issues, fmWellFormed ((template i).frontmatter) = true) →
      (∀ p f, vaultGet vault p = some f → fmMergeable f.frontmatter = true) →
      (processIssues outputDir template
        (processIssues outputDir template vault issues).1 issues).2 = [] := by
  intro out t v issues hnod hT hV
  have hnodp : (issues.map (buildFileName out)).Nodup := by
    have hmap : issues.map (buildFileName out) =
        (issues.map (fun i => i.filename)).map (fun f => out ++ "/" ++ f ++ ".md") := by
      rw [List.map_map]
      rfl
    rw [hmap]
    exact hnod.map (buildFileName_inj out)
  have hpost := processIssues_establishes out t issues v hnodp hT hV
  have hskip := processIssues_skip out t issues (processIssues out t v issues).1 hpost
  rw [hskip]

/-- Counterexample to claim C1 as stated: two issues whose titles
(`"Bug A"` and `"Bug: A"`) sanitize to the same filename reconcile into
the same file; each run first writes one title into the shared file's
frontmatter and then the other, so the second run still performs two
frontmatter writes instead of zero. -/
theorem spec_C1_counterexample :
    ((processIssues "out"
          (fun i => (⟨.obj [("title", .str i.title)], "body"⟩ : VFile))
          (processIssues "out"
              (fun i => (⟨.obj [("title", .str i.title)], "body"⟩ : VFile))
              []
              [(⟨"Bug A", "Bug A"⟩ : ObsidianIssue), (⟨"Bug A", "Bug: A"⟩ : ObsidianIssue)]).1
          [(⟨"Bug A", "Bug A"⟩ : ObsidianIssue), (⟨"Bug A", "Bug: A"⟩ : ObsidianIssue)]).2).length
      = 2 := rfl

theorem spec_C1_witness :
    (([(⟨"Bug A", "Bug A"⟩ : ObsidianIssue)].map (fun i => i.filename)).Nodup) ∧
      (processIssues "out"
        (fun i => (⟨.obj [("title", .str i.title)], "body"⟩ : VFile))
        (processIssues "out"
          (fun i => (⟨.obj [("title", .str i.title)], "body"⟩ : VFile))
          [] [(⟨"Bug A", "Bug A"⟩ : ObsidianIssue)]).1
        [(⟨"Bug A", "Bug A"⟩ : ObsidianIssue)]).2 = [] :=
  ⟨by simp,
    spec_C1_reconcile_idempotent "out"
      (fun i => (⟨.obj [("title", .str i.title)], "body"⟩ : VFile))
      [] [(⟨"Bug A", "Bug A"⟩ : ObsidianIssue)]
      (by simp)
      (fun i hi => by
        rw [List.mem_singleton] at hi
        subst hi
        rfl)
      (fun p f h => by cases h)⟩

theorem spec_C6_witness :
    loadCustomIssuesRun (fun _ => .error "network failure") (fun _ => ⟨"", ""⟩)
      "gitlab" (fun _ => ⟨.null, ""⟩) false [] "P:1" = ([], []) :=
  spec_C6_custom_fetch_all_or_nothing (fun _ => .error "network failure")
    (fun _ => ⟨"", ""⟩) "gitlab" (fun _ => ⟨.null, ""⟩) false [] "P:1"
    [(.project, "1")] (.project, "1") "network failure" rfl (by decide) rfl

end GitlabIssues
